import Mathlib

/-!
Verification development for the interactive CLI chat client in `src/index.js`.

The embedding works at the level the program does:

* Network chunks are modelled as the text the `TextDecoder` produces for them.
  `decoder.decode(value, { stream: true })` carries an incomplete UTF-8 sequence
  over to the next call, so a byte split inside a multi-byte character behaves
  exactly like the corresponding character-boundary split; every byte-level
  split of a body therefore corresponds to a `List String` of decoded chunks.
* `JSON.parse` is embedded as a recursive-descent parser over `List Char`
  (`jsonParse`), accepting precisely the JSON grammar with the whole input
  consumed up to trailing JSON whitespace.
* The mutable globals of the script (`messages`, `isMarkdownMode`,
  `spinnerInterval`) become fields of an explicit `Session` record, and each
  async function becomes a state-passing function that also reports whether it
  threw and what it wrote to stdout.
-/

set_option maxRecDepth 10000

namespace XGpt

/-- Whitespace as trimmed by JavaScript `String.prototype.trim` (the characters
that can actually occur in this program's inputs; the remaining exotic Unicode
space separators never appear in terminal input or SSE framing). -/
def jsWS (c : Char) : Bool :=
  c = ' ' || c = '\t' || c = '\n' || c = '\r' || c = '\x0b' || c = '\x0c' ||
    c = '\u00A0' || c = '\uFEFF'

/-- Whitespace skipped by `JSON.parse` between tokens. -/
def jsonWS (c : Char) : Bool :=
  c = ' ' || c = '\t' || c = '\n' || c = '\r'

def skipJsonWS (l : List Char) : List Char := l.dropWhile jsonWS

/-- JavaScript `s.trim()` on the character list of `s`. -/
def jsTrim (l : List Char) : List Char :=
  ((l.dropWhile jsWS).reverse.dropWhile jsWS).reverse

/-- JavaScript `chunk.split('\n')` (line 151): split on every newline, keeping
empty segments, so `""` splits to `[""]` and a trailing newline yields a final
empty segment. -/
def splitLines : List Char → List (List Char)
  | [] => [[]]
  | c :: cs =>
    if c = '\n' then [] :: splitLines cs
    else
      match splitLines cs with
      | [] => [[c]]
      | l :: ls => (c :: l) :: ls

/-- The literal `data: ` of lines 151/153. -/
def dataHeader : List Char := ['d', 'a', 't', 'a', ':', ' ']

def hasDataHeader (l : List Char) : Bool := dataHeader.isPrefixOf l

/-- `line.replace(/^data: /, '')` (line 153): the regex is anchored at the very
start of the unmodified line, so it strips at most one occurrence and only when
the line itself starts with the header. -/
def stripData (l : List Char) : List Char :=
  if hasDataHeader l then l.drop 6 else l

/-- The sentinel payload `[DONE]` compared against on line 154. -/
def doneMark : List Char := ['[', 'D', 'O', 'N', 'E', ']']

/-! ## A model of `JSON.parse` -/

inductive JValue where
  | jnull : JValue
  | jbool : Bool → JValue
  | jnum : List Char → JValue
  | jstr : List Char → JValue
  | jarr : List JValue → JValue
  | jobj : List (List Char × JValue) → JValue

def hexVal (c : Char) : Option Nat :=
  if 48 ≤ c.toNat ∧ c.toNat ≤ 57 then some (c.toNat - 48)
  else if 97 ≤ c.toNat ∧ c.toNat ≤ 102 then some (c.toNat - 87)
  else if 65 ≤ c.toNat ∧ c.toNat ≤ 70 then some (c.toNat - 55)
  else none

def escChar (e : Char) : Option Char :=
  if e = '"' then some '"'
  else if e = '\\' then some '\\'
  else if e = '/' then some '/'
  else if e = 'b' then some '\x08'
  else if e = 'f' then some '\x0c'
  else if e = 'n' then some '\n'
  else if e = 'r' then some '\r'
  else if e = 't' then some '\t'
  else none

/-- Body of a JSON string, after the opening quote; returns the decoded
characters and the input remaining after the closing quote.  (A lone UTF-16
surrogate from a `\u` escape maps through `Char.ofNat`'s fallback; such
payloads never occur in this program's streams.) -/
def parseStringBody : Nat → List Char → Option (List Char × List Char)
  | 0, _ => none
  | _ + 1, [] => none
  | fuel + 1, c :: rest =>
    if c = '"' then some ([], rest)
    else if c = '\\' then
      match rest with
      | [] => none
      | 'u' :: h1 :: h2 :: h3 :: h4 :: rest' =>
        match hexVal h1, hexVal h2, hexVal h3, hexVal h4 with
        | some a, some b, some c2, some d =>
          match parseStringBody fuel rest' with
          | some (s, r) => some (Char.ofNat (((a * 16 + b) * 16 + c2) * 16 + d) :: s, r)
          | none => none
        | _, _, _, _ => none
      | e :: rest' =>
        match escChar e with
        | some ce =>
          match parseStringBody fuel rest' with
          | some (s, r) => some (ce :: s, r)
          | none => none
        | none => none
    else if c.toNat < 32 then none
    else
      match parseStringBody fuel rest with
      | some (s, r) => some (c :: s, r)
      | none => none

/-- Fraction part of a JSON number: `none` in the first component signals a
syntax error (a dot with no digits). -/
def parseFrac (l : List Char) : Option (List Char) × List Char :=
  match l with
  | '.' :: t =>
    let ds := t.takeWhile Char.isDigit
    if ds = [] then (none, l) else (some ('.' :: ds), t.dropWhile Char.isDigit)
  | _ => (some [], l)

/-- Exponent part of a JSON number. -/
def parseExp (l : List Char) : Option (List Char) × List Char :=
  match l with
  | [] => (some [], l)
  | c :: t =>
    if c = 'e' ∨ c = 'E' then
      match t with
      | [] => (none, l)
      | s :: t2 =>
        if s = '+' ∨ s = '-' then
          let ds := t2.takeWhile Char.isDigit
          if ds = [] then (none, l)
          else (some (c :: s :: ds), t2.dropWhile Char.isDigit)
        else
          let ds := t.takeWhile Char.isDigit
          if ds = [] then (none, l)
          else (some (c :: ds), t.dropWhile Char.isDigit)
    else (some [], l)

/-- JSON number grammar `-? (0 | [1-9][0-9]*) frac? exp?`; the raw spelling is
kept, since the program never reads a numeric field's value. -/
def parseNumber (l : List Char) : Option (JValue × List Char) :=
  let (neg, l1) :=
    match l with
    | '-' :: t => ((['-'] : List Char), t)
    | _ => (([] : List Char), l)
  match l1 with
  | [] => none
  | c :: t =>
    if c = '0' then
      match parseFrac t with
      | (none, _) => none
      | (some fracCs, l2) =>
        match parseExp l2 with
        | (none, _) => none
        | (some exCs, l3) => some (JValue.jnum (neg ++ '0' :: (fracCs ++ exCs)), l3)
    else if c.isDigit then
      let ds := t.takeWhile Char.isDigit
      let l2 := t.dropWhile Char.isDigit
      match parseFrac l2 with
      | (none, _) => none
      | (some fracCs, l3) =>
        match parseExp l3 with
        | (none, _) => none
        | (some exCs, l4) => some (JValue.jnum (neg ++ c :: (ds ++ fracCs ++ exCs)), l4)
    else none

mutual

def parseValue : Nat → List Char → Option (JValue × List Char)
  | 0, _ => none
  | fuel + 1, l =>
    match skipJsonWS l with
    | [] => none
    | c :: rest => parseValueCore fuel c rest

def parseValueCore : Nat → Char → List Char → Option (JValue × List Char)
  | 0, _, _ => none
  | fuel + 1, c, rest =>
    if c = '"' then
      match parseStringBody fuel rest with
      | some (s, rest') => some (JValue.jstr s, rest')
      | none => none
    else if c = '\x7b' then
      match skipJsonWS rest with
      | '\x7d' :: r => some (JValue.jobj [], r)
      | _ =>
        match parseMembers fuel rest with
        | some (fs, r) => some (JValue.jobj fs, r)
        | none => none
    else if c = '[' then
      match skipJsonWS rest with
      | ']' :: r => some (JValue.jarr [], r)
      | _ =>
        match parseElems fuel rest with
        | some (es, r) => some (JValue.jarr es, r)
        | none => none
    else if c = 't' then
      match rest with
      | 'r' :: 'u' :: 'e' :: rest' => some (JValue.jbool true, rest')
      | _ => none
    else if c = 'f' then
      match rest with
      | 'a' :: 'l' :: 's' :: 'e' :: rest' => some (JValue.jbool false, rest')
      | _ => none
    else if c = 'n' then
      match rest with
      | 'u' :: 'l' :: 'l' :: rest' => some (JValue.jnull, rest')
      | _ => none
    else if c = '-' ∨ c.isDigit then
      parseNumber (c :: rest)
    else none

def parseMembers : Nat → List Char → Option (List (List Char × JValue) × List Char)
  | 0, _ => none
  | fuel + 1, l =>
    match skipJsonWS l with
    | '"' :: r =>
      match parseStringBody fuel r with
      | some (k, r1) =>
        match skipJsonWS r1 with
        | ':' :: r2 =>
          match parseValue fuel r2 with
          | some (v, r3) =>
            match skipJsonWS r3 with
            | ',' :: r4 =>
              match parseMembers fuel r4 with
              | some (fs, r5) => some ((k, v) :: fs, r5)
              | none => none
            | '\x7d' :: r4 => some ([(k, v)], r4)
            | _ => none
          | none => none
        | _ => none
      | none => none
    | _ => none

def parseElems : Nat → List Char → Option (List JValue × List Char)
  | 0, _ => none
  | fuel + 1, l =>
    match parseValue fuel l with
    | some (v, r1) =>
      match skipJsonWS r1 with
      | ',' :: r2 =>
        match parseElems fuel r2 with
        | some (es, r3) => some (v :: es, r3)
        | none => none
      | ']' :: r2 => some ([v], r2)
      | _ => none
    | none => none

end

/-- `JSON.parse(s)`: parse a single value and require the rest of the input to
be whitespace. -/
def jsonParse (l : List Char) : Option JValue :=
  match parseValue (2 * l.length + 2) l with
  | some (v, rest) => if skipJsonWS rest = [] then some v else none
  | none => none

/-! ## Field extraction `parsed.choices?.[0]?.delta?.content` (line 159) -/

/-- Duplicate keys in a JSON text: the last occurrence wins, as in
`JSON.parse`. -/
def lookupLast (k : List Char) : List (List Char × JValue) → Option JValue
  | [] => none
  | (k', v) :: rest =>
    match lookupLast k rest with
    | some r => some r
    | none => if k' = k then some v else none

/-- Named property access under optional chaining: `undefined` on anything
without that property.  (`null.choices` would throw a TypeError instead, but
the surrounding `try` on lines 157–166 catches it, so the observable effect —
no token — is the same.) -/
def getProp (v : JValue) (k : List Char) : Option JValue :=
  match v with
  | JValue.jobj fs => lookupLast k fs
  | _ => none

/-- `x?.[0]`: first element of an array, property `"0"` of an object, first
character of a string. -/
def getIdx0 : JValue → Option JValue
  | JValue.jarr es => es.head?
  | JValue.jobj fs => lookupLast ['0'] fs
  | JValue.jstr [] => none
  | JValue.jstr (c :: _) => some (JValue.jstr [c])
  | _ => none

def choicesKey : List Char := ['c', 'h', 'o', 'i', 'c', 'e', 's']
def deltaKey : List Char := ['d', 'e', 'l', 't', 'a']
def contentKey : List Char := ['c', 'o', 'n', 't', 'e', 'n', 't']
def messageKey : List Char := ['m', 'e', 's', 's', 'a', 'g', 'e']

/-- The token a parsed stream payload contributes (lines 159–163).
`parsed.choices?.[0]?.delta?.content || ''` followed by `if (token)` emits
nothing for a missing, empty or otherwise falsy content; a truthy non-string
content makes `process.stdout.write(token)` throw a TypeError that the
`catch {}` of line 164 swallows before `fullMessage += token` runs, so a token
is appended exactly when the content field is a non-empty string. -/
def extractToken (v : JValue) : Option String :=
  match getProp v choicesKey with
  | none => none
  | some cs =>
    match getIdx0 cs with
    | none => none
    | some c0 =>
      match getProp c0 deltaKey with
      | none => none
      | some d =>
        match getProp d contentKey with
        | none => none
        | some ct =>
          match ct with
          | JValue.jstr [] => none
          | JValue.jstr s => some (String.mk s)
          | _ => none

/-! ## The per-chunk stream decoder (lines 150–167) -/

inductive LineEffect where
  | stop : LineEffect
  | tok : String → LineEffect
  | skip : LineEffect
deriving DecidableEq, Repr

/-- What one filtered line does inside the `for` loop of lines 152–167:
`break` on the sentinel, emit a token, or fall through silently. -/
def lineEffect (line : List Char) : LineEffect :=
  let jsonStr := stripData line
  if jsonStr = doneMark then LineEffect.stop
  else
    match jsonParse jsonStr with
    | some v =>
      match extractToken v with
      | some t => LineEffect.tok t
      | none => LineEffect.skip
    | none => LineEffect.skip

/-- The `for (const line of lines)` loop: `break` stops this loop only. -/
def processLines : List (List Char) → List String
  | [] => []
  | ln :: rest =>
    match lineEffect ln with
    | LineEffect.stop => []
    | LineEffect.tok t => t :: processLines rest
    | LineEffect.skip => processLines rest

/-- Line 151: split the chunk on newlines and keep the lines whose trimmed
form starts with `data: `. -/
def dataLines (l : List Char) : List (List Char) :=
  (splitLines l).filter (fun ln => hasDataHeader (jsTrim ln))

/-- Tokens the decoder emits for one delivered chunk.  The source keeps no
text buffer across chunks: each chunk is split and filtered on its own. -/
def chunkTokens (chunk : String) : List String :=
  processLines (dataLines chunk.data)

/-- Tokens emitted over a whole stream of delivered chunks, in order (the
`while (true)` read loop of lines 146–168).  A `[DONE]` inside one chunk only
breaks that chunk's inner loop; the next chunk is processed from scratch. -/
def decodeStream : List String → List String
  | [] => []
  | c :: cs => chunkTokens c ++ decodeStream cs

/-- In-order concatenation of emitted tokens: how `fullMessage` accumulates
(line 162), and how response text is assembled from body chunks. -/
def catAll : List String → String
  | [] => ""
  | s :: rest => s ++ catAll rest

/-! ## Data model: messages, session state, responses -/

inductive Role where
  | user : Role
  | assistant : Role
deriving DecidableEq, Repr

structure Message where
  role : Role
  content : String
deriving DecidableEq, Repr

/-- The script's mutable globals: `messages` (line 87), `isMarkdownMode`
(line 76), and the spinner handle `spinnerInterval` (line 92, modelled as the
flag "a repeating timer is currently scheduled"). -/
structure Session where
  messages : List Message
  isMarkdownMode : Bool
  spinnerOn : Bool
deriving DecidableEq, Repr

/-- An HTTP response: status plus the body, as the decoded text chunks in
which the network delivers it.  `response.text()` and `response.json()` read
the same bytes joined together. -/
structure HttpResp where
  status : Nat
  chunks : List String
deriving DecidableEq, Repr

/-- `response.ok`: status in the inclusive range 200–299. -/
def HttpResp.isOk (r : HttpResp) : Bool := 200 ≤ r.status && r.status < 300

def HttpResp.bodyText (r : HttpResp) : String := catAll r.chunks

/-- Outcome of one `fetch`: either the promise rejects (network failure) or a
response arrives. -/
inductive Fetched where
  | net : String → Fetched
  | resp : HttpResp → Fetched
deriving DecidableEq, Repr

/-- `startSpinner` (lines 93–100): schedules the repeating timer. -/
def startSpinner (s : Session) : Session := { s with spinnerOn := true }

/-- `stopSpinner` (lines 101–108): clears the timer if one is scheduled. -/
def stopSpinner (s : Session) : Session :=
  if s.spinnerOn then { s with spinnerOn := false } else s

/-- `resetConversation` (lines 114–118): empty the message log and set the
mode. -/
def resetConversation (markdownMode : Bool) (s : Session) : Session :=
  { s with messages := [], isMarkdownMode := markdownMode }

/-- Result of one async chat call: whether it rejected (and the turn's error
was thrown), the session state afterwards, and the tokens echoed to stdout. -/
structure TurnOutcome where
  threw : Option String
  state : Session
  emitted : List String
deriving DecidableEq, Repr

/-- `chatWithGPTStream` (lines 123–173): push the user message, fetch with
`stream: true`, throw on a rejected fetch or non-2xx status, otherwise decode
the body chunk by chunk, echoing each token and accumulating `fullMessage`,
then push the assistant message. -/
def chatWithGPTStream (f : Fetched) (userPrompt : String) (s : Session) : TurnOutcome :=
  let s1 : Session := { s with messages := s.messages ++ [Message.mk Role.user userPrompt] }
  match f with
  | Fetched.net e => { threw := some e, state := s1, emitted := [] }
  | Fetched.resp r =>
    if r.isOk then
      let toks := decodeStream r.chunks
      { threw := none,
        state := { s1 with messages := s1.messages ++ [Message.mk Role.assistant (catAll toks)] },
        emitted := toks }
    else
      { threw := some ("HTTP Error " ++ toString r.status ++ ": " ++ r.bodyText),
        state := s1, emitted := [] }

/-- `data.choices[0].message.content` (line 207), without optional chaining:
a missing step throws a TypeError, which propagates as the turn's error. -/
def mdExtract (data : JValue) : Option JValue :=
  match getProp data choicesKey with
  | none => none
  | some cs =>
    match getIdx0 cs with
    | none => none
    | some c0 =>
      match getProp c0 messageKey with
      | none => none
      | some m => getProp m contentKey

/-- `chatWithGPTMarkdown` (lines 179–216): push the user message, start the
spinner, fetch without streaming inside `try`, stop the spinner in `finally`
on every path, then extract and render the reply.  `marked` throws on a
non-string input, so only a string content reaches the final push. -/
def chatWithGPTMarkdown (f : Fetched) (userPrompt : String) (s : Session) : TurnOutcome :=
  let s1 := startSpinner { s with messages := s.messages ++ [Message.mk Role.user userPrompt] }
  match f with
  | Fetched.net e => { threw := some e, state := stopSpinner s1, emitted := [] }
  | Fetched.resp r =>
    if r.isOk then
      match jsonParse r.bodyText.data with
      | none =>
        { threw := some "SyntaxError: unexpected token in JSON", state := stopSpinner s1,
          emitted := [] }
      | some data =>
        let s2 := stopSpinner s1
        match mdExtract data with
        | some (JValue.jstr cs) =>
          { threw := none,
            state := { s2 with
              messages := s2.messages ++ [Message.mk Role.assistant (String.mk cs)] },
            emitted := [] }
        | some _ =>
          { threw := some "Error: marked() input is not a string", state := s2, emitted := [] }
        | none =>
          { threw := some "TypeError: cannot read properties of undefined", state := s2,
            emitted := [] }
    else
      { threw := some ("HTTP Error " ++ toString r.status ++ ": " ++ r.bodyText),
        state := stopSpinner s1, emitted := [] }

/-! ## The session controller (lines 221–283) -/

inductive LoopNext where
  | exit : Nat → LoopNext
  | cont : LoopNext
deriving DecidableEq, Repr

structure StepResult where
  next : LoopNext
  state : Session
  networkCalled : Bool
deriving DecidableEq, Repr

def trimS (s : String) : String := String.mk (jsTrim s.data)

/-- `input.startsWith(p)`. -/
def strHasPre (p s : String) : Bool := p.data.isPrefixOf s.data

/-- `input.slice(n)` (code points coincide with UTF-16 units for the command
tokens involved). -/
def dropS (n : Nat) (s : String) : String := String.mk (s.data.drop n)

/-- One iteration of `promptLoop` (lines 221–283) on a read input line.  All
chat errors are caught at lines 243/259/275 and reported, so the only terminal
transitions are the empty line and `/quit`. -/
def promptLoopStep (f : Fetched) (input : String) (s : Session) : StepResult :=
  if input = "" then
    { next := LoopNext.exit 0, state := s, networkCalled := false }
  else if trimS input = "/quit" then
    { next := LoopNext.exit 0, state := s, networkCalled := false }
  else if strHasPre "/ns " input then
    let newSessionMsg := trimS (dropS 3 input)
    let s1 := resetConversation false s
    if newSessionMsg ≠ "" then
      { next := LoopNext.cont, state := (chatWithGPTStream f newSessionMsg s1).state,
        networkCalled := true }
    else
      { next := LoopNext.cont, state := s1, networkCalled := false }
  else if trimS input = "/ns" then
    { next := LoopNext.cont, state := resetConversation false s, networkCalled := false }
  else if strHasPre "/nsm " input then
    let newSessionMsg := trimS (dropS 4 input)
    let s1 := resetConversation true s
    if newSessionMsg ≠ "" then
      { next := LoopNext.cont, state := (chatWithGPTMarkdown f newSessionMsg s1).state,
        networkCalled := true }
    else
      { next := LoopNext.cont, state := s1, networkCalled := false }
  else if trimS input = "/nsm" then
    { next := LoopNext.cont, state := resetConversation true s, networkCalled := false }
  else
    if s.isMarkdownMode then
      { next := LoopNext.cont, state := (chatWithGPTMarkdown f input s).state,
        networkCalled := true }
    else
      { next := LoopNext.cont, state := (chatWithGPTStream f input s).state,
        networkCalled := true }

/-! ## Spec-side notions used to state the claims -/

/-- One server-sent event carrying the payload `p`. -/
def eventOf (p : String) : String := "data: " ++ p ++ "\n\n"

/-- The terminal event of a well-formed streaming body. -/
def doneEvent : String := "data: [DONE]\n\n"

/-- The complete line carrying the sentinel. -/
def doneLine : List Char := dataHeader ++ doneMark

/-- A well-formed streaming body: the events for the payloads, then the
sentinel event. -/
def bodyOf (ps : List String) : String := catAll (ps.map eventOf) ++ doneEvent

/-- A payload a server may put on one `data: ` line: it fits on one line, is
not itself the sentinel, and contains some non-whitespace character (every
JSON payload does). -/
def GoodPayload (p : String) : Prop :=
  (∀ c ∈ p.data, c ≠ '\n') ∧ p.data ≠ doneMark ∧ (∃ c ∈ p.data, jsWS c = false)

instance (p : String) : Decidable (GoodPayload p) := by
  unfold GoodPayload; infer_instance

/-- The token one payload contributes once its line reaches the parser. -/
def payloadToken (p : String) : Option String :=
  match jsonParse p.data with
  | none => none
  | some v => extractToken v

def effOf : Option String → LineEffect
  | some t => LineEffect.tok t
  | none => LineEffect.skip

/-- The assistant suffix a streaming call appends on each fetch outcome. -/
def streamTail : Fetched → List Message
  | Fetched.net _ => []
  | Fetched.resp r =>
    if r.isOk then [Message.mk Role.assistant (catAll (decodeStream r.chunks))] else []

/-- The reply a buffered call manages to extract, if any. -/
def mdReply : Fetched → Option (List Char)
  | Fetched.net _ => none
  | Fetched.resp r =>
    if r.isOk then
      match jsonParse r.bodyText.data with
      | none => none
      | some data =>
        match mdExtract data with
        | some (JValue.jstr cs) => some cs
        | some _ => none
        | none => none
    else none

/-- The assistant suffix a buffered call appends on each fetch outcome. -/
def mdTail (f : Fetched) : List Message :=
  match mdReply f with
  | some cs => [Message.mk Role.assistant (String.mk cs)]
  | none => []

/-- The body used in §8 of the design document to illustrate chunk-boundary
independence. -/
def hiBody : String := "data: \x7b\"choices\":[\x7b\"delta\":\x7b\"content\":\"Hi\"\x7d\x7d]\x7d\n\n"

/-- The same body cut at byte offset 12, in the middle of its only line. -/
def hiCutA : String := "data: \x7b\"choi"

def hiCutB : String := "ces\":[\x7b\"delta\":\x7b\"content\":\"Hi\"\x7d\x7d]\x7d\n\n"

/-- A payload carrying token `X`. -/
def xPayload : String := "\x7b\"choices\":[\x7b\"delta\":\x7b\"content\":\"X\"\x7d\x7d]\x7d"

/-- A successful streaming response delivering `hiBody` in one chunk. -/
def okHiResp : HttpResp := HttpResp.mk 200 [hiBody]

/-- A failing response as in §8: status 401 with an error body. -/
def badKeyResp : HttpResp := HttpResp.mk 401 ["\x7b\"error\":\"bad key\"\x7d"]

/-- A session with some prior conversation, markdown mode on. -/
def priorSession : Session :=
  Session.mk [Message.mk Role.user "old", Message.mk Role.assistant "stuff"] true false

/-- The payload inside `hiBody`. -/
def hiPayload : String := "\x7b\"choices\":[\x7b\"delta\":\x7b\"content\":\"Hi\"\x7d\x7d]\x7d"

/-! ## Helper lemmas: strings and line splitting -/

theorem strData (s t : String) : (s ++ t).data = s.data ++ t.data := by
  cases s; cases t; rfl

theorem strExt {a b : String} (h : a.data = b.data) : a = b := by
  cases a; cases b; exact congrArg String.mk h

theorem strAppendNil (s : String) : s ++ "" = s :=
  strExt (by rw [strData]; simp)

theorem catAll_cons (p : String) (rest : List String) :
    catAll (p :: rest) = p ++ catAll rest := rfl

theorem catAll_append (l₁ l₂ : List String) :
    catAll (l₁ ++ l₂) = catAll l₁ ++ catAll l₂ := by
  induction l₁ with
  | nil => exact strExt (by rw [strData]; simp [catAll])
  | cons p rest ih =>
    simp only [List.cons_append, catAll_cons, ih]
    exact strExt (by simp [strData, List.append_assoc])

theorem splitLines_ne_nil (l : List Char) : splitLines l ≠ [] := by
  induction l with
  | nil => simp [splitLines]
  | cons c cs ih =>
    simp only [splitLines]
    split
    · simp
    · cases h : splitLines cs with
      | nil => exact absurd h ih
      | cons x xs => simp

theorem splitLines_append_nl (a b : List Char) :
    splitLines (a ++ '\n' :: b) = splitLines a ++ splitLines b := by
  induction a with
  | nil => simp [splitLines]
  | cons c cs ih =>
    by_cases hc : c = '\n'
    · subst hc
      simp [splitLines, ih]
    · simp only [List.cons_append, splitLines, if_neg hc]
      rw [show cs.append ('\n' :: b) = cs ++ '\n' :: b from rfl, ih]
      cases h : splitLines cs with
      | nil => exact absurd h (splitLines_ne_nil cs)
      | cons x xs => simp

theorem splitLines_no_nl (l : List Char) (h : ∀ c ∈ l, c ≠ '\n') :
    splitLines l = [l] := by
  induction l with
  | nil => rfl
  | cons c cs ih =>
    have hc : c ≠ '\n' := h c (by simp)
    simp only [splitLines, if_neg hc]
    rw [ih (fun x hx => h x (by simp [hx]))]

/-! ## Helper lemmas: dropWhile and trimming -/

theorem dropWhile_append_ex {p : Char → Bool} (l m : List Char)
    (h : ∃ c ∈ l, p c = false) : (l ++ m).dropWhile p = l.dropWhile p ++ m := by
  induction l with
  | nil => simp at h
  | cons c cs ih =>
    by_cases hc : p c
    · have h' : ∃ x ∈ cs, p x = false := by
        rcases h with ⟨x, hx, hpx⟩
        rcases List.mem_cons.mp hx with rfl | hx'
        · rw [hc] at hpx; cases hpx
        · exact ⟨x, hx', hpx⟩
      simp only [List.cons_append, List.dropWhile_cons, hc, if_pos rfl]
      exact ih h'
    · simp only [List.cons_append, List.dropWhile_cons]
      rw [Bool.not_eq_true] at hc
      simp [hc]

theorem dropWhile_of_dropWhile_sub {p q : Char → Bool}
    (hsub : ∀ c, q c = true → p c = true) (l : List Char) :
    l.dropWhile p = (l.dropWhile q).dropWhile p := by
  induction l with
  | nil => rfl
  | cons c cs ih =>
    by_cases hq : q c
    · have hp := hsub c hq
      simp only [List.dropWhile_cons, hq, hp, if_pos rfl]
      exact ih
    · rw [Bool.not_eq_true] at hq
      simp [List.dropWhile_cons, hq]

theorem dropWhile_head_not {p : Char → Bool} (l : List Char) {c : Char}
    {rest : List Char} (h : l.dropWhile p = c :: rest) : p c = false := by
  induction l with
  | nil => simp [List.dropWhile] at h
  | cons x xs ih =>
    by_cases hx : p x
    · simp only [List.dropWhile_cons, hx, if_pos rfl] at h
      exact ih h
    · rw [Bool.not_eq_true] at hx
      simp only [List.dropWhile_cons, hx] at h
      simp at h
      rw [← h.1]; exact hx

theorem jsTrim_prefix_ltrim (l : List Char) : jsTrim l <+: l.dropWhile jsWS := by
  unfold jsTrim
  have h1 : (l.dropWhile jsWS).reverse.dropWhile jsWS <:+ (l.dropWhile jsWS).reverse :=
    List.dropWhile_suffix jsWS
  have h2 := List.reverse_prefix.mpr h1
  simpa using h2

/-! ## Helper lemmas: the `data: ` header and filtered lines -/

theorem dataHeader_cons (x : List Char) :
    dataHeader ++ x = 'd' :: ('a' :: 't' :: 'a' :: ':' :: ' ' :: x) := rfl

theorem ltrim_header (x : List Char) :
    (dataHeader ++ x).dropWhile jsWS = dataHeader ++ x := by
  rw [dataHeader_cons, List.dropWhile_cons, if_neg (show ¬jsWS 'd' = true from by decide)]

theorem hasDataHeader_self_append (x : List Char) :
    hasDataHeader (dataHeader ++ x) = true := by
  simp [hasDataHeader, dataHeader, List.isPrefixOf]

theorem stripData_header (x : List Char) : stripData (dataHeader ++ x) = x := by
  unfold stripData
  rw [if_pos (hasDataHeader_self_append x), dataHeader_cons]
  rfl

theorem hdHead {x : List Char} (h : hasDataHeader x = true) : ∃ r, x = 'd' :: r := by
  cases x with
  | nil => simp [hasDataHeader, dataHeader, List.isPrefixOf] at h
  | cons c t =>
    simp only [hasDataHeader, dataHeader, List.isPrefixOf, Bool.and_eq_true, beq_iff_eq] at h
    exact ⟨t, by rw [h.1]⟩

theorem jsTrim_keeps_header (x : List Char) (hx : ∃ c ∈ x, jsWS c = false) :
    hasDataHeader (jsTrim (dataHeader ++ x)) = true := by
  unfold jsTrim
  rw [ltrim_header, List.reverse_append,
    dropWhile_append_ex _ _ (by simpa using hx),
    List.reverse_append, List.reverse_reverse]
  exact hasDataHeader_self_append _

theorem lineEffect_event (p : String) (hp : p.data ≠ doneMark) :
    lineEffect (dataHeader ++ p.data) = effOf (payloadToken p) := by
  unfold lineEffect
  rw [stripData_header, if_neg hp]
  unfold payloadToken
  cases h : jsonParse p.data with
  | none => simp [h, effOf]
  | some v =>
    cases he : extractToken v with
    | none => simp [h, he, effOf]
    | some t => simp [h, he, effOf]

theorem processLines_events (ps : List String) (rest : List (List Char))
    (h : ∀ p ∈ ps, GoodPayload p) :
    processLines ((ps.map fun p => dataHeader ++ p.data) ++ rest)
      = ps.filterMap payloadToken ++ processLines rest := by
  induction ps with
  | nil => simp
  | cons p ps' ih =>
    have hp := h p (by simp)
    simp only [List.map_cons, List.cons_append, processLines]
    rw [lineEffect_event p hp.2.1]
    have ih' := ih (fun q hq => h q (by simp [hq]))
    cases ht : payloadToken p with
    | none => simp [ht, effOf, List.filterMap_cons, ih']
    | some t => simp [ht, effOf, List.filterMap_cons, ih']

theorem dataLines_nil : dataLines [] = [] := by decide

theorem dataLines_event (p : String) (hp : GoodPayload p) (tail : List Char) :
    dataLines ((eventOf p).data ++ tail) = (dataHeader ++ p.data) :: dataLines tail := by
  obtain ⟨hnl, hne, hex⟩ := hp
  unfold dataLines
  have hev : (eventOf p).data ++ tail = (dataHeader ++ p.data) ++ '\n' :: ('\n' :: tail) := by
    unfold eventOf
    rw [strData, strData]
    simp [dataHeader, List.append_assoc]
  have hnl2 : ∀ c ∈ dataHeader ++ p.data, c ≠ '\n' := by
    intro c hc
    rcases List.mem_append.mp hc with hc | hc
    · simp only [dataHeader, List.mem_cons, List.not_mem_nil, or_false] at hc
      rcases hc with rfl | rfl | rfl | rfl | rfl | rfl <;> decide
    · exact hnl c hc
  have hsp : splitLines ('\n' :: tail) = [] :: splitLines tail := by
    simp [splitLines]
  rw [hev, splitLines_append_nl, splitLines_no_nl _ hnl2, hsp]
  have hpred : hasDataHeader (jsTrim (dataHeader ++ p.data)) = true :=
    jsTrim_keeps_header _ hex
  have hempty : hasDataHeader (jsTrim ([] : List Char)) = false := by decide
  simp [hpred, hempty]

theorem dataLines_events (ps : List String) (tail : List Char)
    (h : ∀ p ∈ ps, GoodPayload p) :
    dataLines ((catAll (ps.map eventOf)).data ++ tail)
      = (ps.map fun p => dataHeader ++ p.data) ++ dataLines tail := by
  induction ps with
  | nil => rfl
  | cons p ps' ih =>
    simp only [List.map_cons, catAll_cons]
    rw [strData, List.append_assoc, dataLines_event p (h p (by simp)) _,
      ih (fun q hq => h q (by simp [hq]))]
    simp

theorem chunkTokens_events (ps : List String) (h : ∀ p ∈ ps, GoodPayload p) :
    chunkTokens (catAll (ps.map eventOf)) = ps.filterMap payloadToken := by
  unfold chunkTokens
  have hd := dataLines_events ps [] h
  rw [List.append_nil] at hd
  rw [hd, dataLines_nil, processLines_events ps [] h]
  simp [processLines]

theorem dataLines_doneEvent : dataLines doneEvent.data = [doneLine] := by decide

theorem lineEffect_doneLine : lineEffect doneLine = LineEffect.stop := by decide

theorem processLines_doneLine (rest : List (List Char)) :
    processLines (doneLine :: rest) = [] := by
  simp [processLines, lineEffect_doneLine]

theorem chunkTokens_body (ps : List String) (h : ∀ p ∈ ps, GoodPayload p) :
    chunkTokens (bodyOf ps) = ps.filterMap payloadToken := by
  unfold chunkTokens bodyOf
  rw [strData, dataLines_events ps _ h, processLines_events ps _ h, dataLines_doneEvent,
    processLines_doneLine]
  simp

theorem map_eq_append_split {α β : Type} (f : α → β) :
    ∀ (g a : List β) (l : List α), l.map f = g ++ a →
      ∃ l₁ l₂, l = l₁ ++ l₂ ∧ l₁.map f = g ∧ l₂.map f = a := by
  intro g
  induction g with
  | nil =>
    intro a l h
    exact ⟨[], l, by simp, by simp, by simpa using h⟩
  | cons x g' ih =>
    intro a l h
    cases l with
    | nil => simp at h
    | cons y l' =>
      rw [List.map_cons, List.cons_append] at h
      injection h with h1 h2
      obtain ⟨l₁, l₂, he, hm1, hm2⟩ := ih a l' h2
      exact ⟨y :: l₁, l₂, by simp [he], by simp [hm1, h1], hm2⟩

theorem chunkTokens_empty : chunkTokens "" = [] := by decide

theorem decodeStream_all_nil (G : List (List String)) (h : G.flatten = []) :
    decodeStream (G.map catAll) = [] := by
  induction G with
  | nil => rfl
  | cons g G' ih =>
    rw [show (g :: G').flatten = g ++ G'.flatten from rfl] at h
    obtain ⟨hg, hG'⟩ := List.append_eq_nil.mp h
    subst hg
    simp only [List.map_cons, decodeStream]
    rw [ih hG']
    simpa using chunkTokens_empty

theorem decode_grouped (G : List (List String)) :
    ∀ qs : List String, (∀ p ∈ qs, GoodPayload p) →
      G.flatten = qs.map eventOf ++ [doneEvent] →
      decodeStream (G.map catAll) = qs.filterMap payloadToken := by
  induction G with
  | nil =>
    intro qs hgood h
    exact absurd h.symm (by simp)
  | cons g G' ih =>
    intro qs hgood h
    rw [show (g :: G').flatten = g ++ G'.flatten from rfl] at h
    rcases List.append_eq_append_iff.mp h with ⟨a', hc, hb⟩ | ⟨c', hg, hd⟩
    · obtain ⟨qs₁, qs₂, hq, hm1, hm2⟩ := map_eq_append_split eventOf g a' qs hc
      subst hq
      rw [hm2.symm] at hb
      have hgood₁ : ∀ p ∈ qs₁, GoodPayload p := fun p hp => hgood p (by simp [hp])
      have hgood₂ : ∀ p ∈ qs₂, GoodPayload p := fun p hp => hgood p (by simp [hp])
      simp only [List.map_cons, decodeStream]
      rw [← hm1, chunkTokens_events qs₁ hgood₁, ih qs₂ hgood₂ hb,
        List.filterMap_append]
    · cases c' with
      | nil =>
        rw [List.append_nil] at hg
        subst hg
        simp only [List.map_cons, decodeStream]
        rw [chunkTokens_events qs hgood,
          ih [] (by simp) (by simpa using hd.symm)]
        simp
      | cons y c'' =>
        injection hd with hy hrest
        subst hy
        obtain ⟨hc'', hG'⟩ := List.append_eq_nil.mp hrest.symm
        subst hc''
        subst hg
        simp only [List.map_cons, decodeStream]
        rw [decodeStream_all_nil G' hG', List.append_nil]
        have hcat : catAll (qs.map eventOf ++ [doneEvent]) = bodyOf qs := by
          rw [catAll_append, catAll_cons, show catAll ([] : List String) = "" from rfl,
            strAppendNil]
          rfl
        rw [hcat, chunkTokens_body qs hgood]

/-! ## Helper lemmas: the sentinel inside one chunk -/

theorem processLines_stop_middle (X Y : List (List Char)) (ln : List Char)
    (h : lineEffect ln = LineEffect.stop) :
    processLines (X ++ ln :: Y) = processLines (X ++ [ln]) := by
  induction X with
  | nil => simp [processLines, h]
  | cons x X' ih =>
    simp only [List.cons_append, processLines]
    cases lineEffect x <;> simp [ih]

theorem splitLines_doneLine : splitLines doneLine = [doneLine] := by decide

theorem doneLine_passes : hasDataHeader (jsTrim doneLine) = true := by decide

theorem chunkTokens_stop_tail (a b : String) :
    chunkTokens (a ++ "\ndata: [DONE]\n" ++ b) = chunkTokens (a ++ "\ndata: [DONE]") := by
  have h1 : (a ++ "\ndata: [DONE]\n" ++ b).data
      = a.data ++ '\n' :: (doneLine ++ '\n' :: b.data) := by
    rw [strData, strData, List.append_assoc]
    congr 1
  have h2 : (a ++ "\ndata: [DONE]").data = a.data ++ '\n' :: doneLine := by
    rw [strData]
    congr 1
  unfold chunkTokens dataLines
  rw [h1, h2, splitLines_append_nl, splitLines_append_nl, splitLines_append_nl,
    splitLines_doneLine]
  simp only [List.filter_append]
  have hfd : List.filter (fun ln => hasDataHeader (jsTrim ln)) [doneLine] = [doneLine] := by
    simp [doneLine_passes]
  rw [hfd]
  exact processLines_stop_middle _ _ _ lineEffect_doneLine

/-! ## Helper lemmas: whitespace-indented lines and the JSON parser -/

theorem parseValueCore_bad_head (fuel : Nat) (c : Char) (rest : List Char)
    (h : c = 'd' ∨ c = '\x0b' ∨ c = '\x0c' ∨ c = '\u00A0' ∨ c = '\uFEFF') :
    parseValueCore fuel c rest = none := by
  cases fuel with
  | zero => rfl
  | succ n => rcases h with rfl | rfl | rfl | rfl | rfl <;> rfl

theorem jsonParse_bad_head (l : List Char)
    (hcases : ∀ c rest, skipJsonWS l = c :: rest →
      (c = 'd' ∨ c = '\x0b' ∨ c = '\x0c' ∨ c = '\u00A0' ∨ c = '\uFEFF')) :
    jsonParse l = none := by
  unfold jsonParse
  rw [show 2 * l.length + 2 = (2 * l.length + 1) + 1 from rfl]
  cases hu : skipJsonWS l with
  | nil => simp [parseValue, hu]
  | cons c rest =>
    simp [parseValue, hu, parseValueCore_bad_head _ c rest (hcases c rest hu)]

theorem jsonWS_sub_jsWS : ∀ x, jsonWS x = true → jsWS x = true := by
  intro x hx
  simp only [jsonWS, Bool.or_eq_true, decide_eq_true_eq, or_assoc] at hx
  rcases hx with rfl | rfl | rfl | rfl <;> decide

theorem ws_line_parse_none (c : Char) (t : List Char)
    (hdr : hasDataHeader (jsTrim (c :: t)) = true) : jsonParse (c :: t) = none := by
  apply jsonParse_bad_head
  intro c₀ rest hu
  obtain ⟨r, hd⟩ := hdHead hdr
  obtain ⟨w, hw⟩ : ∃ w, jsTrim (c :: t) ++ w = (c :: t).dropWhile jsWS :=
    jsTrim_prefix_ltrim (c :: t)
  have hujs : (c :: t).dropWhile jsWS = 'd' :: (r ++ w) := by
    rw [← hw, hd]; rfl
  have hmono := dropWhile_of_dropWhile_sub jsonWS_sub_jsWS (c :: t)
  rw [show (c :: t).dropWhile jsonWS = skipJsonWS (c :: t) from rfl, hu] at hmono
  have hc₀json : jsonWS c₀ = false := dropWhile_head_not (c :: t) hu
  by_cases hc₀ : jsWS c₀ = true
  · simp only [jsWS, Bool.or_eq_true, decide_eq_true_eq, or_assoc] at hc₀
    rcases hc₀ with rfl | rfl | rfl | rfl | rfl | rfl | rfl | rfl
    · exact absurd hc₀json (by decide)
    · exact absurd hc₀json (by decide)
    · exact absurd hc₀json (by decide)
    · exact absurd hc₀json (by decide)
    · exact Or.inr (Or.inl rfl)
    · exact Or.inr (Or.inr (Or.inl rfl))
    · exact Or.inr (Or.inr (Or.inr (Or.inl rfl)))
    · exact Or.inr (Or.inr (Or.inr (Or.inr rfl)))
  · have : (c₀ :: rest).dropWhile jsWS = c₀ :: rest := by
      rw [List.dropWhile_cons, if_neg hc₀]
    rw [this, hujs] at hmono
    injection hmono with h1 h2
    exact Or.inl h1.symm

/-! ## Helper lemmas: outcome shapes of the completion operations and the loop -/

theorem stream_state_messages (f : Fetched) (p : String) (s : Session) :
    (chatWithGPTStream f p s).state.messages
      = s.messages ++ Message.mk Role.user p :: streamTail f := by
  cases f with
  | net e => simp [chatWithGPTStream, streamTail]
  | resp r =>
    by_cases h : r.isOk
    · simp [chatWithGPTStream, streamTail, h]
    · simp [chatWithGPTStream, streamTail, h]

theorem md_state_messages (f : Fetched) (p : String) (s : Session) :
    (chatWithGPTMarkdown f p s).state.messages
      = s.messages ++ Message.mk Role.user p :: mdTail f := by
  cases f with
  | net e => simp [chatWithGPTMarkdown, mdTail, mdReply, startSpinner, stopSpinner]
  | resp r =>
    by_cases h : r.isOk
    · cases hj : jsonParse r.bodyText.data with
      | none => simp [chatWithGPTMarkdown, mdTail, mdReply, h, hj, startSpinner, stopSpinner]
      | some data =>
        cases hm : mdExtract data with
        | none =>
          simp [chatWithGPTMarkdown, mdTail, mdReply, h, hj, hm, startSpinner, stopSpinner]
        | some v =>
          cases v <;>
            simp [chatWithGPTMarkdown, mdTail, mdReply, h, hj, hm, startSpinner, stopSpinner]
    · simp [chatWithGPTMarkdown, mdTail, mdReply, h, startSpinner, stopSpinner]

theorem promptLoopStep_chat (f : Fetched) (input : String) (s : Session)
    (hne : input ≠ "") (hq : trimS input ≠ "/quit")
    (hns : strHasPre "/ns " input = false) (hns2 : trimS input ≠ "/ns")
    (hnsm : strHasPre "/nsm " input = false) (hnsm2 : trimS input ≠ "/nsm") :
    promptLoopStep f input s =
      if s.isMarkdownMode then
        { next := LoopNext.cont, state := (chatWithGPTMarkdown f input s).state,
          networkCalled := true }
      else
        { next := LoopNext.cont, state := (chatWithGPTStream f input s).state,
          networkCalled := true } := by
  unfold promptLoopStep
  rw [if_neg hne, if_neg hq, if_neg (by simp [hns]), if_neg hns2,
    if_neg (by simp [hnsm]), if_neg hnsm2]

/-! ## Claims -/

/-- C1, counterexample: the decoder is not chunk-boundary independent.  The
spec's own example body, split at byte offset 12 (inside its single `data: `
line), decodes to no token at all, while the whole body as one chunk decodes
to the token `Hi`: the per-chunk `split('\n')` keeps no partial-line carry
across chunks. -/
theorem c1_counterexample :
    hiCutA ++ hiCutB = hiBody ∧
    decodeStream [hiBody] = ["Hi"] ∧
    decodeStream [hiCutA, hiCutB] = [] ∧
    decodeStream [hiCutA, hiCutB] ≠ decodeStream [hiBody] :=
  ⟨by decide, by decide, by decide, by decide⟩

/-- C1, amended: chunk-boundary independence holds for the splits the decoder
is actually exposed to only when every chunk boundary falls between complete
events: for a well-formed body (payload events followed by the sentinel
event), delivering any grouping of whole events chunk by chunk emits exactly
the token sequence of the single-chunk delivery.  Splits at arbitrary byte
offsets can cut a line and lose its token (see the counterexample). -/
theorem c1_chunk_boundary_line_aligned (ps : List String) (G : List (List String))
    (hgood : ∀ p ∈ ps, GoodPayload p)
    (hG : G.flatten = ps.map eventOf ++ [doneEvent]) :
    decodeStream (G.map catAll) = decodeStream [bodyOf ps] := by
  rw [decode_grouped G ps hgood hG]
  show _ = chunkTokens (bodyOf ps) ++ decodeStream []
  rw [chunkTokens_body ps hgood]
  simp [decodeStream]

/-- C1, witness: the `Hi` body delivered as two chunks split at the event
boundary decodes exactly as the single-chunk delivery. -/
theorem c1_witness :
    (∀ p ∈ [hiPayload], GoodPayload p) ∧
    ([[eventOf hiPayload], [doneEvent]] : List (List String)).flatten
        = [hiPayload].map eventOf ++ [doneEvent] ∧
    decodeStream (([[eventOf hiPayload], [doneEvent]] : List (List String)).map catAll)
        = decodeStream [bodyOf [hiPayload]] :=
  ⟨by decide, by decide,
    c1_chunk_boundary_line_aligned [hiPayload] [[eventOf hiPayload], [doneEvent]]
      (by decide) (by decide)⟩

/-- C2, counterexample: `chatWithGPTStream` itself mutates the Conversation
Store — after one successful call on an empty store the message list is no
longer empty (it holds the user message and the assistant message the
operation pushed on lines 124 and 172). -/
theorem c2_counterexample :
    (chatWithGPTStream (Fetched.resp (HttpResp.mk 200 [])) "hi"
        (Session.mk [] false false)).state.messages
      ≠ (Session.mk [] false false).messages := by decide

/-- C2, amended: both completion operations mutate the Conversation Store
themselves: each pushes the user message on entry (lines 124/180) and, on
success, the assistant message (lines 172/215); the Session Controller
appends neither. -/
theorem c2_completion_ops_append (f : Fetched) (p : String) (s : Session) :
    (chatWithGPTStream f p s).state.messages
        = s.messages ++ Message.mk Role.user p :: streamTail f ∧
    (chatWithGPTMarkdown f p s).state.messages
        = s.messages ++ Message.mk Role.user p :: mdTail f :=
  ⟨stream_state_messages f p s, md_state_messages f p s⟩

/-- C3, counterexample: the sentinel does not terminate the logical stream —
a `data: [DONE]` chunk followed by a further chunk still emits the later
chunk's token `X`, because the `break` of line 155 only leaves the inner
`for` loop; delivered in one chunk the same bytes emit nothing. -/
theorem c3_counterexample :
    decodeStream ["data: [DONE]\n\n", eventOf xPayload] = ["X"] ∧
    decodeStream ["data: [DONE]\n\n" ++ eventOf xPayload] = [] :=
  ⟨by decide, by decide⟩

/-- C3, amended: the sentinel terminates decoding only within the chunk that
carries it: whatever complete lines follow a `data: [DONE]` line in the same
chunk contribute no token, but decoding restarts from scratch on the next
delivered chunk (see the counterexample). -/
theorem c3_sentinel_stops_within_chunk (a b : String) :
    chunkTokens (a ++ "\ndata: [DONE]\n" ++ b) = chunkTokens (a ++ "\ndata: [DONE]") :=
  chunkTokens_stop_tail a b

/-- C4: a chat-classified input with a non-2xx response leaves exactly the
user message as the newest store entry — no assistant message — and the loop
continues: the throw of line 138 (or 198) is caught at the turn boundary
(lines 275–277). -/
theorem c4_non2xx_abandons_turn (r : HttpResp) (input : String) (s : Session)
    (hne : input ≠ "") (hq : trimS input ≠ "/quit")
    (hns : strHasPre "/ns " input = false) (hns2 : trimS input ≠ "/ns")
    (hnsm : strHasPre "/nsm " input = false) (hnsm2 : trimS input ≠ "/nsm")
    (hok : r.isOk = false) :
    (promptLoopStep (Fetched.resp r) input s).next = LoopNext.cont ∧
    (promptLoopStep (Fetched.resp r) input s).state.messages
      = s.messages ++ [Message.mk Role.user input] := by
  rw [promptLoopStep_chat (Fetched.resp r) input s hne hq hns hns2 hnsm hnsm2]
  cases hm : s.isMarkdownMode
  · rw [if_neg (by simp [hm])]
    refine ⟨rfl, ?_⟩
    rw [stream_state_messages]
    simp [streamTail, hok]
  · rw [if_pos (by simp [hm])]
    refine ⟨rfl, ?_⟩
    rw [md_state_messages]
    simp [mdTail, mdReply, hok]

/-- C4, witness: user message `hello` against the 401 `bad key` response. -/
theorem c4_witness :
    (("hello" : String) ≠ "" ∧ trimS "hello" ≠ "/quit" ∧
      strHasPre "/ns " "hello" = false ∧ trimS "hello" ≠ "/ns" ∧
      strHasPre "/nsm " "hello" = false ∧ trimS "hello" ≠ "/nsm" ∧
      badKeyResp.isOk = false) ∧
    ((promptLoopStep (Fetched.resp badKeyResp) "hello" (Session.mk [] false false)).next
        = LoopNext.cont ∧
     (promptLoopStep (Fetched.resp badKeyResp) "hello"
          (Session.mk [] false false)).state.messages
        = [Message.mk Role.user "hello"]) := by
  refine ⟨by decide, ?_⟩
  have h := c4_non2xx_abandons_turn badKeyResp "hello" (Session.mk [] false false)
    (by decide) (by decide) (by decide) (by decide) (by decide) (by decide) (by decide)
  simpa using h

/-- C5: on input `/ns hello` the store is cleared, the mode becomes
streaming, and one turn runs with user message `hello`; on a 2xx response the
store afterwards is exactly the user message and the decoded assistant
reply. -/
theorem c5_ns_hello (r : HttpResp) (s : Session) (hok : r.isOk = true) :
    (promptLoopStep (Fetched.resp r) "/ns hello" s).next = LoopNext.cont ∧
    (promptLoopStep (Fetched.resp r) "/ns hello" s).state.isMarkdownMode = false ∧
    (promptLoopStep (Fetched.resp r) "/ns hello" s).state.messages
      = [Message.mk Role.user "hello",
         Message.mk Role.assistant (catAll (decodeStream r.chunks))] := by
  have hstep : promptLoopStep (Fetched.resp r) "/ns hello" s
      = { next := LoopNext.cont,
          state := (chatWithGPTStream (Fetched.resp r) "hello"
            (resetConversation false s)).state,
          networkCalled := true } := rfl
  rw [hstep]
  simp [chatWithGPTStream, resetConversation, hok]

/-- C5, witness: `/ns hello` after a prior markdown conversation, with the
`Hi` stream as the reply. -/
theorem c5_witness :
    okHiResp.isOk = true ∧
    ((promptLoopStep (Fetched.resp okHiResp) "/ns hello" priorSession).next
        = LoopNext.cont ∧
     (promptLoopStep (Fetched.resp okHiResp) "/ns hello" priorSession).state.isMarkdownMode
        = false ∧
     (promptLoopStep (Fetched.resp okHiResp) "/ns hello" priorSession).state.messages
        = [Message.mk Role.user "hello",
           Message.mk Role.assistant (catAll (decodeStream okHiResp.chunks))]) :=
  ⟨by decide, c5_ns_hello okHiResp priorSession (by decide)⟩

/-- C6: on every exit path of a buffered request — network failure, non-2xx
status, JSON-parse failure, shape failure, or success — the spinner started
on line 182 has been stopped by the `finally` of lines 202–205 once the call
resolves. -/
theorem c6_spinner_stopped_all_paths (f : Fetched) (p : String) (s : Session) :
    (chatWithGPTMarkdown f p s).state.spinnerOn = false := by
  cases f with
  | net e => simp [chatWithGPTMarkdown, startSpinner, stopSpinner]
  | resp r =>
    by_cases h : r.isOk
    · cases hj : jsonParse r.bodyText.data with
      | none => simp [chatWithGPTMarkdown, h, hj, startSpinner, stopSpinner]
      | some data =>
        cases hm : mdExtract data with
        | none => simp [chatWithGPTMarkdown, h, hj, hm, startSpinner, stopSpinner]
        | some v =>
          cases v <;> simp [chatWithGPTMarkdown, h, hj, hm, startSpinner, stopSpinner]
    · simp [chatWithGPTMarkdown, h, startSpinner, stopSpinner]

/-- C7: the empty input line and the exact input `/quit` both exit with code
0, for every mode, conversation and pending response, without touching the
network (lines 224–233 run before any fetch). -/
theorem c7_empty_and_quit_exit (f : Fetched) (s : Session) :
    promptLoopStep f "" s = StepResult.mk (LoopNext.exit 0) s false ∧
    promptLoopStep f "/quit" s = StepResult.mk (LoopNext.exit 0) s false :=
  ⟨rfl, rfl⟩

/-- C8: a line with leading whitespace whose trimmed form starts with
`data: ` passes the filter of line 151, but the anchored `replace` of line
153 strips nothing, the remainder is never the bare sentinel and never parses
as JSON, so the line is silently skipped — in particular an indented
`data: [DONE]` does not terminate decoding. -/
theorem c8_indented_data_line_skipped (c : Char) (t : List Char)
    (hws : jsWS c = true) (hdr : hasDataHeader (jsTrim (c :: t)) = true) :
    stripData (c :: t) = c :: t ∧ lineEffect (c :: t) = LineEffect.skip := by
  have hcd : c ≠ 'd' := fun h => by subst h; exact absurd hws (by decide)
  have hh : hasDataHeader (c :: t) = false := by
    simp only [hasDataHeader, dataHeader, List.isPrefixOf]
    simp [beq_eq_false_iff_ne.mpr (Ne.symm hcd)]
  have hstrip : stripData (c :: t) = c :: t := by
    unfold stripData
    rw [hh]
    simp
  have hnd : (c :: t) ≠ doneMark := by
    intro h
    unfold doneMark at h
    injection h with h1 _
    subst h1
    exact absurd hws (by decide)
  refine ⟨hstrip, ?_⟩
  unfold lineEffect
  rw [hstrip, if_neg hnd, ws_line_parse_none c t hdr]

/-- C8, witness: the line ` data: [DONE]` (one leading space). -/
theorem c8_witness :
    jsWS ' ' = true ∧
    hasDataHeader (jsTrim (' ' :: "data: [DONE]".data)) = true ∧
    (stripData (' ' :: "data: [DONE]".data) = ' ' :: "data: [DONE]".data ∧
     lineEffect (' ' :: "data: [DONE]".data) = LineEffect.skip) :=
  ⟨by decide, by decide,
    c8_indented_data_line_skipped ' ' ("data: [DONE]".data) (by decide) (by decide)⟩

/-- C9: a non-empty input of only whitespace is neither the empty-line exit
nor any command: it is a chat turn whose user message is the whole untrimmed
line, and the loop continues. -/
theorem c9_whitespace_input_is_chat_turn (f : Fetched) (input : String) (s : Session)
    (hne : input ≠ "") (hall : input.data.all jsWS = true) :
    (promptLoopStep f input s).next = LoopNext.cont ∧
    (promptLoopStep f input s).networkCalled = true ∧
    ∃ tail, (promptLoopStep f input s).state.messages
      = s.messages ++ Message.mk Role.user input :: tail := by
  have hd : input.data ≠ [] := fun h => hne (strExt (by rw [h]))
  obtain ⟨c, t, hct⟩ := List.exists_cons_of_ne_nil hd
  have hcw : jsWS c = true := by
    rw [hct] at hall
    simp only [List.all_cons, Bool.and_eq_true] at hall
    exact hall.1
  have hdropnil : input.data.dropWhile jsWS = [] :=
    List.dropWhile_eq_nil_iff.mpr (fun x hx => by
      revert hx
      have := List.all_eq_true.mp hall
      intro hx
      exact this x hx)
  have htrim : trimS input = "" := by
    unfold trimS jsTrim
    rw [hdropnil]
    rfl
  have hns : strHasPre "/ns " input = false := by
    rw [Bool.eq_false_iff]
    intro hpre
    unfold strHasPre at hpre
    rw [hct] at hpre
    simp only [List.isPrefixOf, Bool.and_eq_true, beq_iff_eq] at hpre
    have : c = '/' := hpre.1.symm
    subst this
    exact absurd hcw (by decide)
  have hnsm : strHasPre "/nsm " input = false := by
    rw [Bool.eq_false_iff]
    intro hpre
    unfold strHasPre at hpre
    rw [hct] at hpre
    simp only [List.isPrefixOf, Bool.and_eq_true, beq_iff_eq] at hpre
    have : c = '/' := hpre.1.symm
    subst this
    exact absurd hcw (by decide)
  rw [promptLoopStep_chat f input s hne (by rw [htrim]; decide) hns (by rw [htrim]; decide)
    hnsm (by rw [htrim]; decide)]
  cases hm : s.isMarkdownMode
  · rw [if_neg (by simp [hm])]
    exact ⟨rfl, rfl, streamTail f, stream_state_messages f input s⟩
  · rw [if_pos (by simp [hm])]
    exact ⟨rfl, rfl, mdTail f, md_state_messages f input s⟩

/-- C9, witness: the single-space input. -/
theorem c9_witness :
    ((" " : String) ≠ "" ∧ (" " : String).data.all jsWS = true) ∧
    ((promptLoopStep (Fetched.resp okHiResp) " " (Session.mk [] false false)).next
        = LoopNext.cont ∧
     (promptLoopStep (Fetched.resp okHiResp) " " (Session.mk [] false false)).networkCalled
        = true ∧
     ∃ tail, (promptLoopStep (Fetched.resp okHiResp) " "
          (Session.mk [] false false)).state.messages
        = (Session.mk [] false false).messages ++ Message.mk Role.user " " :: tail) :=
  ⟨⟨by decide, by decide⟩,
    c9_whitespace_input_is_chat_turn (Fetched.resp okHiResp) " " (Session.mk [] false false)
      (by decide) (by decide)⟩

/-- C10: a streaming turn that resolves without throwing appends exactly the
user message and one assistant message whose content is the in-order
concatenation of the tokens echoed during the turn, which are precisely the
decoder's output for the response body; with zero tokens the assistant
message has empty content. -/
theorem c10_stream_appends_concatenation (f : Fetched) (p : String) (s : Session)
    (h : (chatWithGPTStream f p s).threw = none) :
    (chatWithGPTStream f p s).state.messages
      = s.messages ++ [Message.mk Role.user p,
          Message.mk Role.assistant (catAll ((chatWithGPTStream f p s).emitted))] ∧
    ∃ r, f = Fetched.resp r ∧ (chatWithGPTStream f p s).emitted = decodeStream r.chunks := by
  cases f with
  | net e => simp [chatWithGPTStream] at h
  | resp r =>
    by_cases hok : r.isOk
    · refine ⟨?_, r, rfl, ?_⟩ <;> simp [chatWithGPTStream, hok]
    · simp [chatWithGPTStream, hok] at h

/-- C10, witness: a 2xx response whose body delivers no tokens still appends
an assistant message with empty content. -/
theorem c10_witness :
    (chatWithGPTStream (Fetched.resp (HttpResp.mk 200 [])) "q" priorSession).threw = none ∧
    ((chatWithGPTStream (Fetched.resp (HttpResp.mk 200 [])) "q" priorSession).state.messages
        = priorSession.messages ++ [Message.mk Role.user "q",
            Message.mk Role.assistant
              (catAll ((chatWithGPTStream (Fetched.resp (HttpResp.mk 200 []))
                "q" priorSession).emitted))] ∧
     ∃ r, (Fetched.resp (HttpResp.mk 200 []) : Fetched) = Fetched.resp r ∧
       (chatWithGPTStream (Fetched.resp (HttpResp.mk 200 [])) "q" priorSession).emitted
         = decodeStream r.chunks) :=
  ⟨by decide,
    c10_stream_appends_concatenation (Fetched.resp (HttpResp.mk 200 [])) "q" priorSession
      (by decide)⟩

end XGpt
